import Mathlib

/-!
Verification of the httpsify dynamic HTTPS reverse proxy.

This file gives a shallow embedding, in Lean, of the routing core of the
httpsify repository (host resolution, port admission policy, protocol
dispatch, HTTP forwarding, stream tunneling, error responses, response
accounting, and TLS certificate provisioning), together with theorems
settling the behavioural claims about that code.

Bytes are modelled as `List Nat`, Go strings as Lean `String` (working over
`List Char`), Go `int` as `Int`, and fallible Go functions returning
`(T, error)` as `Except String T`.
-/

namespace Httpsify

/-! ## Basic character and string machinery (ASCII) -/

/-- `\d` of the host regular expression: an ASCII decimal digit. -/
def isDigitChar (c : Char) : Bool := '0' ≤ c && c ≤ '9'

/-- ASCII lowering of one character, the fragment of Go `strings.ToLower`
relevant to header token matching. -/
def lowerChar (c : Char) : Char :=
  if 'A' ≤ c && c ≤ 'Z' then Char.ofNat (c.toNat + 32) else c

/-- ASCII lowering of a character list (Go `strings.ToLower` on ASCII data). -/
def lowerStr (s : List Char) : List Char := s.map lowerChar

/-- Numeric value of a decimal digit character. -/
def digitVal (c : Char) : Nat := c.toNat - '0'.toNat

/-- Decimal value of a digit run, most significant digit first
(the semantics of `strconv.Atoi` on an all-digit string, ignoring width). -/
def digitsToNat (ds : List Char) : Nat :=
  ds.foldl (fun a c => 10 * a + digitVal c) 0

/-- `startsList n h` holds when `n` occurs at the very start of `h`. -/
def startsList {α : Type} [BEq α] : List α → List α → Bool
  | [], _ => true
  | _ :: _, [] => false
  | a :: as, b :: bs => a == b && startsList as bs

/-- Go `strings.Contains` generalized to lists: `needle` occurs somewhere
inside the haystack (the empty needle always occurs). -/
def containsSub {α : Type} [BEq α] (needle : List α) : List α → Bool
  | [] => startsList needle []
  | c :: t => startsList needle (c :: t) || containsSub needle t

/-- Strip a literal from the front of a list: `some` of the remainder on
match, `none` otherwise. Used to model the literal parts of the anchored
host regular expression. -/
def stripL : List Char → List Char → Option (List Char)
  | [], s => some s
  | _ :: _, [] => none
  | p :: ps, c :: cs => if p == c then stripL ps cs else none

/-! ## Host resolver (`internal/proxy`, `hostPattern` and `parseHost`)

The Go code matches the anchored regular expression
`^(\d+)\.(localhost|localtest\.me)(?::\d+)?$` against the Host header.
Because the capture group `(\d+)` is immediately followed by the literal
`.`, which is not a digit, any full match must take the group to be exactly
the maximal leading digit run.  The embedding therefore splits the host at
the first non-digit character and checks the remainder against the literal
alternatives. -/

/-- The optional `(?::\d+)?$` tail of the host pattern: either nothing, or a
colon followed by one or more digits, ending the string. -/
def portSuffixOk : List Char → Bool
  | [] => true
  | ':' :: ds => !ds.isEmpty && ds.all isDigitChar
  | _ => false

/-- The `\.(localhost|localtest\.me)(?::\d+)?$` part of the host pattern,
applied to everything after the leading digit run. -/
def suffixOk (rest : List Char) : Bool :=
  match stripL ".localhost".toList rest with
  | some r => portSuffixOk r
  | none =>
    match stripL ".localtest.me".toList rest with
    | some r => portSuffixOk r
    | none => false

/-- `strconv.Atoi` on the captured digit run: the digits are known to be
decimal, so the call fails only on 64-bit signed overflow. -/
def atoiDigits (ds : List Char) : Option Nat :=
  let v := digitsToNat ds
  if v ≤ 9223372036854775807 then some v else none

/-- `config.ValidatePort`: a port is valid iff it lies in `[1, 65535]`. -/
def ValidatePort (port : Int) : Except String Unit :=
  if port < 1 || port > 65535 then
    .error ("port " ++ toString port ++ " out of valid range (1-65535)")
  else
    .ok ()

/-- `(*Server).parseHost`: match the Host header against `hostPattern`,
parse the captured digit run with `strconv.Atoi`, and validate the port
with `config.ValidatePort`. -/
def parseHost (host : String) : Except String Int :=
  let cs := host.toList
  let ds := cs.takeWhile isDigitChar
  let rest := cs.dropWhile isDigitChar
  if ds.isEmpty || !(suffixOk rest) then
    .error ("invalid host format: " ++ host)
  else
    match atoiDigits ds with
    | none => .error ("invalid port number: " ++ String.mk ds)
    | some v =>
      match ValidatePort (v : Int) with
      | .error e => .error e
      | .ok _ => .ok (v : Int)

/-- Success test for `Except`, mirroring `err == nil` in the Go callers. -/
def isOkE {ε α : Type} : Except ε α → Bool
  | .ok _ => true
  | .error _ => false

/-! ## Port admission policy (`internal/config`) -/

/-- `config.PortRange`: an inclusive range of ports.  The Go fields are
`Start` and `End`; `End` is spelled `stop` here because `end` is a Lean
keyword. -/
structure PortRange where
  start : Int
  stop : Int
deriving DecidableEq, Repr

/-- `PortRange.Contains`: `port >= pr.Start && port <= pr.End`. -/
def PortRange.Contains (pr : PortRange) (port : Int) : Bool :=
  pr.start ≤ port && port ≤ pr.stop

/-- The policy-relevant fields of `config.Config`: the deny ranges and the
single allow range. -/
structure Config where
  DenyPorts : List PortRange
  AllowRange : PortRange

/-- `(*Config).IsPortAllowed`: return `false` as soon as any deny range
contains the port, otherwise defer to the allow range. -/
def Config.IsPortAllowed (c : Config) (port : Int) : Bool :=
  if c.DenyPorts.any (fun pr => pr.Contains port) then false
  else c.AllowRange.Contains port

/-- `config.DefaultConfig`'s policy: deny 22, 25, 135-139, 445, 3389, 5900;
allow 1024-65535. -/
def defaultConfig : Config :=
  { DenyPorts :=
      [⟨22, 22⟩, ⟨25, 25⟩, ⟨135, 139⟩, ⟨445, 445⟩, ⟨3389, 3389⟩, ⟨5900, 5900⟩],
    AllowRange := ⟨1024, 65535⟩ }

/-! ## Protocol dispatcher (`isWebSocketRequest`) -/

/-- `isWebSocketRequest`, over the values of the `Connection` and `Upgrade`
headers: Go computes `strings.Contains(strings.ToLower(connection),
"upgrade") && strings.ToLower(upgrade) == "websocket"`. -/
def isWebSocketRequest (connection upgradeHeader : String) : Bool :=
  containsSub "upgrade".toList (lowerStr connection.toList) &&
    lowerStr upgradeHeader.toList == "websocket".toList

/-- Optional whitespace around an element of a comma-separated header list. -/
def isOWS (c : Char) : Bool := c == ' ' || c == '\t'

/-- Trim optional whitespace from both ends of a header list element. -/
def trimOWS (s : List Char) : List Char :=
  ((s.dropWhile isOWS).reverse.dropWhile isOWS).reverse

/-- Split a character list at every comma (the comma-separated elements of
a `Connection` header). -/
def splitComma : List Char → List (List Char)
  | [] => [[]]
  | c :: t =>
    if c = ',' then [] :: splitComma t
    else
      match splitComma t with
      | [] => [[c]]
      | p :: ps => (c :: p) :: ps

/-- Spec-side predicate: the `Connection` header's comma-separated token
list contains the token `upgrade`, compared case-insensitively after
trimming optional whitespace.  This is what the specification describes;
it is compared against the code's substring test `isWebSocketRequest`. -/
def connectionHasUpgradeToken (connection : String) : Bool :=
  (splitComma connection.toList).any
    (fun t => lowerStr (trimOWS t) == "upgrade".toList)

/-! ## Header maps

Go `http.Header` restricted to the operations the proxy uses: `Set`
replaces all values of a key, `Get` returns the first value (or `""`), and
the reverse proxy's response-header copy appends entries after the
existing ones. -/

/-- Remove every entry of a key. -/
def eraseKey (hs : List (String × String)) (k : String) : List (String × String) :=
  hs.filter (fun e => !(e.1 == k))

/-- Go `http.Header.Set`. -/
def setHeader (hs : List (String × String)) (k v : String) : List (String × String) :=
  (k, v) :: eraseKey hs k

/-- Go `http.Header.Get`: first value of the key, `""` when absent. -/
def headerGet (hs : List (String × String)) (k : String) : String :=
  match hs.find? (fun e => e.1 == k) with
  | some e => e.2
  | none => ""

/-! ## Byte sequences -/

/-- A byte sequence (values are unconstrained naturals; only identity of
bytes matters to the claims). -/
abbrev Bytes := List Nat

/-- ASCII bytes of a string, for checking raw relayed data for a header
name. -/
def asciiBytes (s : String) : Bytes := s.toList.map Char.toNat

/-! ## The outbound request (`handleHTTP`'s `ReverseProxy.Director`) -/

/-- The inbound request data consumed by the proxy core.  Headers are
(canonical key, value) pairs, first pair of a key winning on `Get`;
`remoteAddr` is `http.Request.RemoteAddr`. -/
structure Request where
  host : String
  method : String
  path : String
  query : String
  body : Bytes
  remoteAddr : String
  headers : List (String × String)

/-- `proxy.ErrorResponse`; `omitempty` fields become `none` when the Go
string is empty.  The Go `Example` field is spelled `exampleURL` because
`example` is a Lean keyword. -/
structure ErrorResponse where
  error : String
  hint : Option String
  exampleURL : Option String
deriving DecidableEq, Repr

/-- Classification of backend errors made by `handleHTTP`'s
`ErrorHandler`: `net.Error` timeouts, errors whose text contains
"connection refused", and everything else. -/
inductive NetErr where
  | timeout
  | refused
  | generic
deriving DecidableEq, Repr

/-- A successful backend HTTP response. -/
structure BackendResp where
  status : Nat
  headers : List (String × String)
  body : Bytes
deriving DecidableEq, Repr

/-- The network effects of one request. -/
structure Env where
  backendHTTP : Except NetErr BackendResp
  dialOk : Bool
  hijackSupported : Bool
  hijackOk : Bool
  tunnelBytes : Bytes

/-- Response body: raw proxied bytes, or an encoded `ErrorResponse`. -/
inductive Body where
  | raw (b : Bytes)
  | jsonError (e : ErrorResponse)
deriving DecidableEq, Repr

/-- What the client receives. -/
inductive Outcome where
  | http (status : Nat) (headers : List (String × String)) (body : Body)
  | tunnel (toClient : Bytes)
deriving DecidableEq, Repr

/-- `omitempty` on a string field. -/
def optStr (s : String) : Option String := if s = "" then none else some s

/-- `(*Server).writeJSONError`: set `Content-Type`, write the status code,
encode the `ErrorResponse`.  (`handleError` only forwards here.) -/
def writeJSONError (hs : List (String × String)) (statusCode : Nat)
    (errMsg hint ex : String) : Outcome :=
  .http statusCode (setHeader hs "Content-Type" "application/json")
    (.jsonError { error := errMsg, hint := optStr hint, exampleURL := optStr ex })

/-- The message/hint pair chosen by `handleHTTP`'s `ErrorHandler` per
backend-error class. -/
def proxyErrMsg (e : NetErr) (port : Int) : String × String :=
  match e with
  | .timeout => ("Request timed out", "The backend service took too long to respond")
  | .refused => ("Connection refused", "No service is listening on port " ++ toString port)
  | .generic =>
    ("Backend service unavailable", "Make sure a service is running on port " ++ toString port)

/-- `(*Server).ServeHTTP`: the response observable by the client. -/
def serveHTTP (cfg : Config) (env : Env) (requestID : String) (r : Request) : Outcome :=
  let h0 := setHeader [] "X-Request-ID" requestID
  match parseHost r.host with
  | .error e =>
    writeJSONError h0 400 e "Use format: https://<port>.localhost" "https://8000.localhost"
  | .ok port =>
    if !(cfg.IsPortAllowed port) then
      writeJSONError h0 403 ("Port " ++ toString port ++ " is not allowed")
        "This port is either denied or outside the allowed range" "https://8000.localhost"
    else if isWebSocketRequest (headerGet r.headers "Connection")
        (headerGet r.headers "Upgrade") then
      if !env.dialOk then
        writeJSONError h0 502 "Failed to connect to backend"
          ("Make sure a service is running on port " ++ toString port) ""
      else if !env.hijackSupported then
        writeJSONError h0 500 "WebSocket hijacking not supported" "" ""
      else if !env.hijackOk then
        writeJSONError h0 500 "Failed to hijack connection" "" ""
      else
        .tunnel env.tunnelBytes
    else
      match env.backendHTTP with
      | .error e =>
        writeJSONError h0 502 (proxyErrMsg e port).1 (proxyErrMsg e port).2 ""
      | .ok resp =>
        .http resp.status (h0 ++ resp.headers) (.raw resp.body)

/-! ## Response accounting (`responseWriter`)

The wrapper is driven by the sequence of `WriteHeader`/`Write` calls the
handler makes; each `Write` carries the byte count the underlying writer
reports as successfully written.  The state records what the wrapper
observes plus what reaches the underlying writer. -/

/-- One call made against the wrapper.  `accepted` is the count the
underlying `ResponseWriter.Write` returns for that call. -/
inductive WOp where
  | writeHeader (code : Nat)
  | write (b : Bytes) (accepted : Nat)

/-- The wrapper's fields plus the data passed to the underlying writer. -/
structure RWState where
  statusCode : Nat
  bytesWritten : Nat
  wroteHeader : Bool
  underlyingStatus : Option Nat
  underlyingWrites : List Bytes

/-- `&responseWriter{ResponseWriter: w, statusCode: http.StatusOK}`. -/
def rwInit : RWState :=
  { statusCode := 200, bytesWritten := 0, wroteHeader := false,
    underlyingStatus := none, underlyingWrites := [] }

/-- `(*responseWriter).WriteHeader`: only the first call records and
forwards a status. -/
def rwWriteHeader (st : RWState) (code : Nat) : RWState :=
  if st.wroteHeader then st
  else { st with statusCode := code, wroteHeader := true, underlyingStatus := some code }

/-- `(*responseWriter).Write`: an implicit `WriteHeader(200)` if none
happened yet, then the payload goes to the underlying writer unmodified
and the reported count accumulates. -/
def rwWrite (st : RWState) (b : Bytes) (accepted : Nat) : RWState :=
  let st1 := if st.wroteHeader then st else rwWriteHeader st 200
  { st1 with bytesWritten := st1.bytesWritten + accepted,
             underlyingWrites := st1.underlyingWrites ++ [b] }

/-- Run a call sequence against the wrapper. -/
def rwRun : RWState → List WOp → RWState
  | st, [] => st
  | st, WOp.writeHeader c :: ops => rwRun (rwWriteHeader st c) ops
  | st, WOp.write b n :: ops => rwRun (rwWrite st b n) ops

/-- The status the claim predicts: 200 when the first call is a body
write (or there is no call), else the code of the first `WriteHeader`. -/
def expectedStatus : List WOp → Nat
  | WOp.writeHeader c :: _ => c
  | _ => 200

/-- Total byte count the underlying writer reported across all writes. -/
def sumAccepted : List WOp → Nat
  | [] => 0
  | WOp.writeHeader _ :: ops => sumAccepted ops
  | WOp.write _ n :: ops => n + sumAccepted ops

/-- The write payloads, in order. -/
def writePayloads : List WOp → List Bytes
  | [] => []
  | WOp.writeHeader _ :: ops => writePayloads ops
  | WOp.write b _ :: ops => b :: writePayloads ops

/-! ## Certificate provisioner (`internal/tls`)

The filesystem is a path-to-bytes map; cryptographic validity of a
persisted pair (Go `tls.LoadX509KeyPair` succeeding) is an oracle, and the
randomly generated DER material of one `generateSelfSignedCert` run is a
parameter.  Directory creation and file writes are modelled as always
succeeding; `pem.Encode` as an injective framing. -/

/-- `tlsutil.Config`. -/
structure TLSUtilConfig where
  CertPath : String
  KeyPath : String
  SelfSigned : Bool

/-- The data of the returned `tls.Config` relevant to the claims: which
PEM pair its certificate was loaded from. -/
structure TLSConfig where
  certPem : Bytes
  keyPem : Bytes
deriving DecidableEq, Repr

/-- A filesystem: later entries are shadowed by earlier ones. -/
abbrev FS := List (String × Bytes)

/-- Read a file. -/
def FS.read (fs : FS) (p : String) : Option Bytes :=
  match fs.find? (fun e => e.1 == p) with
  | some e => some e.2
  | none => none

/-- Write (create or truncate) a file. -/
def FS.write (fs : FS) (p : String) (b : Bytes) : FS :=
  (p, b) :: fs.filter (fun e => !(e.1 == p))

/-- `tlsutil.fileExists`. -/
def fileExists (fs : FS) (p : String) : Bool := (fs.read p).isSome

/-- Whether `tls.LoadX509KeyPair` accepts a certificate/key byte pair. -/
structure CryptoOracle where
  loadOk : Bytes → Bytes → Bool

/-- `tlsutil.loadCertificates`: read and parse the pair, build the TLS
configuration from it. -/
def loadCertificates (oracle : CryptoOracle) (fs : FS)
    (certPath keyPath : String) : Except String TLSConfig :=
  match fs.read certPath with
  | none => .error "failed to load certificate"
  | some c =>
    match fs.read keyPath with
    | none => .error "failed to load certificate"
    | some k =>
      if oracle.loadOk c k then .ok { certPem := c, keyPem := k }
      else .error "failed to load certificate"

/-- The DER material produced by one run's key generation and certificate
creation. -/
structure GenMaterial where
  leafCertDER : Bytes
  caCertDER : Bytes
  leafKeyDER : Bytes

/-- `pem.Encode` of one block, as an injective framing. -/
def pemEncode (b : Bytes) : Bytes := b.length :: b

/-- `filepath.Join(filepath.Dir(certPath), "ca.pem")`. -/
def caCertPathOf (certPath : String) : String :=
  let cs := certPath.toList
  if cs.contains '/' then
    String.mk ((((cs.reverse.dropWhile (fun c => !(c == '/'))).drop 1).reverse)
      ++ "/ca.pem".toList)
  else "ca.pem"

/-- `tlsutil.generateSelfSignedCert`: write leaf+CA PEM to the cert path,
the leaf key to the key path, the CA alone to `ca.pem` next to the cert,
then load the pair back.  Returns the result together with the final
filesystem. -/
def generateSelfSignedCert (oracle : CryptoOracle) (gen : GenMaterial)
    (certPath keyPath : String) (fs : FS) : Except String TLSConfig × FS :=
  let certContent := pemEncode gen.leafCertDER ++ pemEncode gen.caCertDER
  let fs1 := fs.write certPath certContent
  let fs2 := fs1.write keyPath (pemEncode gen.leafKeyDER)
  let fs3 := fs2.write (caCertPathOf certPath) (pemEncode gen.caCertDER)
  match loadCertificates oracle fs3 certPath keyPath with
  | .ok t => (.ok t, fs3)
  | .error _ => (.error "failed to load generated certificate", fs3)

/-- `tlsutil.LoadOrGenerateCert`. -/
def LoadOrGenerateCert (oracle : CryptoOracle) (gen : GenMaterial)
    (cfg : TLSUtilConfig) (fs : FS) : Except String TLSConfig × FS :=
  if !cfg.SelfSigned then (loadCertificates oracle fs cfg.CertPath cfg.KeyPath, fs)
  else
    if fileExists fs cfg.CertPath && fileExists fs cfg.KeyPath then
      match loadCertificates oracle fs cfg.CertPath cfg.KeyPath with
      | .ok t => (.ok t, fs)
      | .error _ => generateSelfSignedCert oracle gen cfg.CertPath cfg.KeyPath fs
    else generateSelfSignedCert oracle gen cfg.CertPath cfg.KeyPath fs

/-! ## The synthesized CA certificate template (`caTemplate`) -/

/-- Go `crypto/x509` `KeyUsage` bit flags. -/
def KeyUsageDigitalSignature : Nat := 1

/-- Go `crypto/x509` `KeyUsageContentCommitment`. -/
def KeyUsageContentCommitment : Nat := 2

/-- Go `crypto/x509` `KeyUsageKeyEncipherment`. -/
def KeyUsageKeyEncipherment : Nat := 4

/-- Go `crypto/x509` `KeyUsageCertSign`. -/
def KeyUsageCertSign : Nat := 32

/-- Go `crypto/x509` `KeyUsageCRLSign`. -/
def KeyUsageCRLSign : Nat := 64

/-- The `x509.Certificate` template fields set by the code, with validity
expressed as offsets from `time.Now()` (`NotBefore = now - 1h`,
`NotAfter = now.AddDate(y, 0, 0)`). -/
structure CertTemplate where
  serialNumber : Nat
  organization : String
  commonName : String
  notBeforeHoursOffset : Int
  notAfterYearsOffset : Nat
  keyUsage : Nat
  basicConstraintsValid : Bool
  isCA : Bool
  maxPathLen : Nat
  maxPathLenZero : Bool

/-- The `caTemplate` literal in `generateSelfSignedCert`. -/
def caTemplate : CertTemplate :=
  { serialNumber := 1,
    organization := "HTTPSify Development CA",
    commonName := "HTTPSify Root CA",
    notBeforeHoursOffset := -1,
    notAfterYearsOffset := 10,
    keyUsage := Nat.lor KeyUsageCertSign KeyUsageCRLSign,
    basicConstraintsValid := true,
    isCA := true,
    maxPathLen := 1,
    maxPathLenZero := false }

/-- The BasicConstraints `pathLenConstraint` that `x509.CreateCertificate`
encodes for a template: present with value `MaxPathLen` when positive,
present with value 0 when `MaxPathLenZero`, otherwise absent. -/
def encodedPathLen (t : CertTemplate) : Option Nat :=
  if t.isCA && t.basicConstraintsValid then
    if t.maxPathLenZero then some 0
    else if t.maxPathLen > 0 then some t.maxPathLen
    else none
  else none

/-- RFC 5280 §4.2.1.9 semantics of `pathLenConstraint`: a CA with
constraint `k` admits chains with at most `k` intermediate CA
certificates below it; an absent constraint admits any depth. -/
def pathLenAdmitsIntermediates (t : CertTemplate) (numIntermediates : Nat) : Bool :=
  match encodedPathLen t with
  | none => true
  | some k => numIntermediates ≤ k

/-! ## Canonical decimal representation of a natural number

Used to state claims of the form "the string `n.localhost`". -/

/-- The character of one decimal digit. -/
def digitChar : Nat → Char
  | 0 => '0' | 1 => '1' | 2 => '2' | 3 => '3' | 4 => '4'
  | 5 => '5' | 6 => '6' | 7 => '7' | 8 => '8' | _ => '9'

/-- Fuelled canonical decimal digits of a natural number, most significant
first.  The fuel only bounds recursion depth; `decDigits` always supplies
enough. -/
def decDigitsCore : Nat → Nat → List Char
  | 0, _ => []
  | fuel + 1, n =>
    if n < 10 then [digitChar n]
    else decDigitsCore fuel (n / 10) ++ [digitChar (n % 10)]

/-- Canonical decimal digits of a natural number (no leading zeros, `0`
rendered as `"0"`). -/
def decDigits (n : Nat) : List Char := decDigitsCore (n + 1) n

lemma digitChar_isDigit {d : Nat} (h : d < 10) : isDigitChar (digitChar d) = true := by
  interval_cases d <;> decide

lemma digitVal_digitChar {d : Nat} (h : d < 10) : digitVal (digitChar d) = d := by
  interval_cases d <;> decide

lemma digitsToNat_append_digit (xs : List Char) (c : Char) :
    digitsToNat (xs ++ [c]) = 10 * digitsToNat xs + digitVal c := by
  simp [digitsToNat, List.foldl_append]

lemma decDigitsCore_spec (fuel : Nat) : ∀ n, n < fuel →
    decDigitsCore fuel n ≠ [] ∧ (decDigitsCore fuel n).all isDigitChar = true ∧
      digitsToNat (decDigitsCore fuel n) = n := by
  induction fuel with
  | zero => intro n hn; omega
  | succ fuel ih =>
    intro n hn
    by_cases h10 : n < 10
    · refine ⟨by simp [decDigitsCore, h10], ?_, ?_⟩
      · simp [decDigitsCore, h10, digitChar_isDigit h10]
      · simp [decDigitsCore, h10, digitsToNat, digitVal_digitChar h10]
    · have hdiv : n / 10 < fuel := by
        have h1 : n / 10 < n := Nat.div_lt_self (by omega) (by omega)
        omega
      obtain ⟨hne, hall, hval⟩ := ih (n / 10) hdiv
      have hm : n % 10 < 10 := Nat.mod_lt _ (by omega)
      refine ⟨by simp [decDigitsCore, h10], ?_, ?_⟩
      · simp [decDigitsCore, h10, List.all_append, hall, digitChar_isDigit hm]
      · rw [decDigitsCore]
        simp only [h10, if_false]
        rw [digitsToNat_append_digit, hval, digitVal_digitChar hm]
        omega

lemma decDigits_ne_nil (n : Nat) : decDigits n ≠ [] :=
  (decDigitsCore_spec (n + 1) n (by omega)).1

lemma decDigits_all_digit (n : Nat) : (decDigits n).all isDigitChar = true :=
  (decDigitsCore_spec (n + 1) n (by omega)).2.1

lemma decDigits_val (n : Nat) : digitsToNat (decDigits n) = n :=
  (decDigitsCore_spec (n + 1) n (by omega)).2.2

/-! ## Lemmas about the host resolver -/

lemma toList_mk (l : List Char) : (String.mk l).toList = l := rfl

lemma takeWhile_append_all {p : Char → Bool} (ds sfx : List Char)
    (h : ds.all p = true) (h2 : ∀ c, sfx.head? = some c → p c = false) :
    (ds ++ sfx).takeWhile p = ds ∧ (ds ++ sfx).dropWhile p = sfx := by
  induction ds with
  | nil =>
    cases sfx with
    | nil => simp
    | cons c t =>
      have := h2 c rfl
      simp [List.takeWhile_cons, List.dropWhile_cons, this]
  | cons d ds ih =>
    simp only [List.all_cons, Bool.and_eq_true] at h
    have := ih h.2
    simp [List.takeWhile_cons, List.dropWhile_cons, h.1, this.1, this.2]

lemma stripL_self_append (pre r : List Char) : stripL pre (pre ++ r) = some r := by
  induction pre with
  | nil => rfl
  | cons p ps ih => simp [stripL, ih]

lemma stripL_eq_some : ∀ {pre s r : List Char}, stripL pre s = some r → s = pre ++ r := by
  intro pre
  induction pre with
  | nil => intro s r h; simpa [stripL] using h
  | cons p ps ih =>
    intro s r h
    cases s with
    | nil => simp [stripL] at h
    | cons c cs =>
      simp only [stripL] at h
      split at h
      · next heq =>
        have : p = c := by simpa using heq
        subst this
        simpa using ih h
      · exact absurd h (by simp)

lemma toList_dot_localhost :
    ".localhost".toList = ['.', 'l', 'o', 'c', 'a', 'l', 'h', 'o', 's', 't'] := rfl

lemma toList_dot_localtest :
    ".localtest.me".toList =
      ['.', 'l', 'o', 'c', 'a', 'l', 't', 'e', 's', 't', '.', 'm', 'e'] := rfl

lemma suffixOk_head {rest : List Char} (h : suffixOk rest = true) :
    ∃ r, rest = '.' :: r := by
  cases rest with
  | nil => exact absurd h (by decide)
  | cons c r =>
    by_cases hc : c = '.'
    · exact ⟨r, by rw [hc]⟩
    · exfalso
      have h1 : ('.' == c) = false := by
        simp only [beq_eq_false_iff_ne, ne_eq]
        exact fun e => hc e.symm
      rw [suffixOk, toList_dot_localhost, toList_dot_localtest] at h
      simp [stripL, h1] at h

lemma parseHost_ok_gen (ds sfx : List Char)
    (hne : ds ≠ []) (hall : ds.all isDigitChar = true)
    (hsfx : suffixOk sfx = true)
    (h1 : 1 ≤ digitsToNat ds) (h2 : digitsToNat ds ≤ 65535) :
    parseHost (String.mk (ds ++ sfx)) = .ok ((digitsToNat ds : Nat) : Int) := by
  obtain ⟨r, hr⟩ := suffixOk_head hsfx
  have hhead : ∀ c, sfx.head? = some c → isDigitChar c = false := by
    intro c hc
    rw [hr] at hc
    simp only [List.head?_cons, Option.some.injEq] at hc
    rw [← hc]
    decide
  obtain ⟨htake, hdrop⟩ := takeWhile_append_all ds sfx hall hhead
  have hds : ds.isEmpty = false := by
    cases ds
    · exact absurd rfl hne
    · rfl
  have hv : atoiDigits ds = some (digitsToNat ds) := by
    unfold atoiDigits
    rw [if_pos (by omega)]
  have hvp : ValidatePort ((digitsToNat ds : Nat) : Int) = .ok () := by
    unfold ValidatePort
    rw [if_neg]
    simp only [Bool.or_eq_true, decide_eq_true_eq, not_or, not_lt]
    constructor
    · exact_mod_cast h1
    · simp only [not_lt.symm, not_not]
      omega
  simp only [parseHost, toList_mk, htake, hdrop, hds, hsfx, Bool.not_true,
    Bool.or_false, if_false, hv, hvp]
  rfl

lemma exists_first_nondigit {p : Char → Bool} (l : List Char)
    (h : l.all p = false) :
    ∃ c r, l.dropWhile p = c :: r ∧ p c = false ∧ c ∈ l := by
  induction l with
  | nil => simp at h
  | cons a t ih =>
    by_cases ha : p a = true
    · simp only [List.all_cons, ha, Bool.true_and] at h
      obtain ⟨c, r, hd, hc, hm⟩ := ih h
      exact ⟨c, r, by simp [List.dropWhile_cons, ha, hd], hc, by simp [hm]⟩
    · have ha' : p a = false := by
        cases hpa : p a
        · rfl
        · exact absurd hpa ha
      exact ⟨a, t, by simp [List.dropWhile_cons, ha'], ha', by simp⟩

lemma dropWhile_append_cons {p : Char → Bool} (l m c r)
    (h : l.dropWhile p = c :: r) :
    (l ++ m).dropWhile p = c :: (r ++ m) := by
  induction l with
  | nil => simp at h
  | cons a t ih =>
    by_cases ha : p a = true
    · simp only [List.dropWhile_cons, ha, if_true] at h
      simpa [List.dropWhile_cons, ha] using ih h
    · have ha' : p a = false := by
        cases hpa : p a
        · rfl
        · exact absurd hpa ha
      simp only [List.dropWhile_cons, ha', Bool.false_eq_true, if_false] at h ⊢
      cases h
      simp [ha']

lemma parseHost_nondigit_label_fails (label : List Char)
    (hdot : ∀ c ∈ label, c ≠ '.')
    (hnd : label.all isDigitChar = false) :
    isOkE (parseHost (String.mk (label ++ ".localhost".toList))) = false := by
  obtain ⟨c, r, hd, hc, hm⟩ := exists_first_nondigit label hnd
  have hdrop := dropWhile_append_cons label ".localhost".toList c r hd
  have hso : suffixOk (c :: (r ++ ".localhost".toList)) = false := by
    cases hEq : suffixOk (c :: (r ++ ".localhost".toList))
    · rfl
    · obtain ⟨r', hr'⟩ := suffixOk_head hEq
      exact absurd (List.cons.injEq .. ▸ hr').1 (hdot c hm)
  rw [parseHost, toList_mk, hdrop, hso]
  simp [isOkE]

lemma all_takeWhile (p : Char → Bool) (l : List Char) :
    (l.takeWhile p).all p = true := by
  induction l with
  | nil => rfl
  | cons a t ih =>
    by_cases ha : p a = true
    · simp [List.takeWhile_cons, ha, ih]
    · have ha' : p a = false := by
        cases hpa : p a
        · rfl
        · exact absurd hpa ha
      simp [List.takeWhile_cons, ha']

lemma parseHost_ok_structure {h : String} {v : Int} (hok : parseHost h = .ok v) :
    ∃ ds popt,
      (h.toList = ds ++ ".localhost".toList ++ popt ∨
        h.toList = ds ++ ".localtest.me".toList ++ popt) ∧
      portSuffixOk popt = true ∧ ds ≠ [] ∧ ds.all isDigitChar = true := by
  rw [parseHost] at hok
  split at hok
  · exact absurd hok (by simp)
  · next hcond =>
    simp only [Bool.or_eq_true, Bool.not_eq_true', not_or, Bool.not_eq_false,
      Bool.not_eq_true] at hcond
    obtain ⟨hne, hsfx⟩ := hcond
    refine ⟨h.toList.takeWhile isDigitChar, ?_⟩
    have hsplit : h.toList.takeWhile isDigitChar ++ h.toList.dropWhile isDigitChar
        = h.toList := List.takeWhile_append_dropWhile isDigitChar h.toList
    have hnenil : h.toList.takeWhile isDigitChar ≠ [] := by
      intro hnil
      rw [hnil] at hne
      simp at hne
    rw [suffixOk] at hsfx
    cases h1 : stripL ".localhost".toList (h.toList.dropWhile isDigitChar) with
    | some r =>
      refine ⟨r, Or.inl ?_, ?_, hnenil, all_takeWhile _ _⟩
      · rw [List.append_assoc, ← stripL_eq_some h1, hsplit]
      · rw [h1] at hsfx
        exact hsfx
    | none =>
      rw [h1] at hsfx
      cases h2 : stripL ".localtest.me".toList (h.toList.dropWhile isDigitChar) with
      | some r =>
        refine ⟨r, Or.inr ?_, ?_, hnenil, all_takeWhile _ _⟩
        · rw [List.append_assoc, ← stripL_eq_some h2, hsplit]
        · rw [h2] at hsfx
          exact hsfx
      | none =>
        rw [h2] at hsfx
        simp at hsfx

lemma suffixOk_localhost_app (popt : List Char) :
    suffixOk (".localhost".toList ++ popt) = portSuffixOk popt := by
  rw [suffixOk, stripL_self_append]

lemma suffixOk_localtest_app (popt : List Char) :
    suffixOk (".localtest.me".toList ++ popt) = portSuffixOk popt := by
  have h1 : stripL ".localhost".toList (".localtest.me".toList ++ popt) = none := rfl
  rw [suffixOk, h1, stripL_self_append]

lemma portSuffixOk_digits (p : List Char) (hne : p ≠ [])
    (hall : p.all isDigitChar = true) : portSuffixOk (':' :: p) = true := by
  have hp : p.isEmpty = false := by
    cases p
    · exact absurd rfl hne
    · rfl
  simp [portSuffixOk, hp, hall]

/-- C1: Host resolution is total and exact over the anchored grammar.  For
every `n` in `[1,65535]`, the canonical-decimal hosts `n.localhost` and
`n.localtest.me`, with or without a `:<digits>` port suffix, resolve to `n`;
`0.localhost`, `65536.localhost`, any single label before `.localhost` that
is not all digits, the multi-label host `app.8000.localhost` all fail; and
any host on which resolution succeeds is of the anchored form
`<digits>.localhost[:<digits>]` or `<digits>.localtest.me[:<digits>]`, so
hosts missing that suffix fail. -/
theorem C1_host_resolution :
    (∀ n : Nat, 1 ≤ n → n ≤ 65535 →
      (parseHost (String.mk (decDigits n ++ ".localhost".toList)) = .ok (n : Int) ∧
        parseHost (String.mk (decDigits n ++ ".localtest.me".toList)) = .ok (n : Int)) ∧
      ∀ p : List Char, p ≠ [] → p.all isDigitChar = true →
        parseHost (String.mk (decDigits n ++ ".localhost".toList ++ ':' :: p)) = .ok (n : Int) ∧
        parseHost (String.mk (decDigits n ++ ".localtest.me".toList ++ ':' :: p)) = .ok (n : Int)) ∧
    isOkE (parseHost "0.localhost") = false ∧
    isOkE (parseHost "65536.localhost") = false ∧
    isOkE (parseHost "app.8000.localhost") = false ∧
    (∀ label : List Char, (∀ c ∈ label, c ≠ '.') → label.all isDigitChar = false →
      isOkE (parseHost (String.mk (label ++ ".localhost".toList))) = false) ∧
    (∀ h : String, ∀ v : Int, parseHost h = .ok v →
      ∃ ds popt,
        (h.toList = ds ++ ".localhost".toList ++ popt ∨
          h.toList = ds ++ ".localtest.me".toList ++ popt) ∧
        portSuffixOk popt = true ∧ ds ≠ [] ∧ ds.all isDigitChar = true) := by
  refine ⟨?_, by rfl, by rfl, by rfl, parseHost_nondigit_label_fails,
    fun h v hok => parseHost_ok_structure hok⟩
  intro n h1 h2
  have hval : 1 ≤ digitsToNat (decDigits n) ∧ digitsToNat (decDigits n) ≤ 65535 := by
    rw [decDigits_val]
    exact ⟨h1, h2⟩
  constructor
  · constructor
    · have := parseHost_ok_gen (decDigits n) ".localhost".toList (decDigits_ne_nil n)
        (decDigits_all_digit n) (by rfl) hval.1 hval.2
      rwa [decDigits_val] at this
    · have := parseHost_ok_gen (decDigits n) ".localtest.me".toList (decDigits_ne_nil n)
        (decDigits_all_digit n) (by rfl) hval.1 hval.2
      rwa [decDigits_val] at this
  · intro p hpne hpall
    have hps := portSuffixOk_digits p hpne hpall
    constructor
    · have := parseHost_ok_gen (decDigits n) (".localhost".toList ++ ':' :: p)
        (decDigits_ne_nil n) (decDigits_all_digit n)
        (by rw [suffixOk_localhost_app]; exact hps) hval.1 hval.2
      rw [decDigits_val] at this
      rwa [List.append_assoc]
    · have := parseHost_ok_gen (decDigits n) (".localtest.me".toList ++ ':' :: p)
        (decDigits_ne_nil n) (decDigits_all_digit n)
        (by rw [suffixOk_localtest_app]; exact hps) hval.1 hval.2
      rw [decDigits_val] at this
      rwa [List.append_assoc]

/-- Witness for C1 at concrete inputs: port 8000 over `.localhost`, port 9
over `.localtest.me:443`, the non-digit label `abc`, and the successful
host `7.localhost` for the structural part. -/
theorem C1_host_resolution_witness :
    parseHost (String.mk (decDigits 8000 ++ ".localhost".toList)) = .ok 8000 ∧
    parseHost (String.mk (decDigits 9 ++ ".localtest.me".toList ++ ':' :: ['4', '4', '3']))
      = .ok 9 ∧
    isOkE (parseHost (String.mk (['a', 'b', 'c'] ++ ".localhost".toList))) = false ∧
    (∃ ds popt,
      ("7.localhost".toList = ds ++ ".localhost".toList ++ popt ∨
        "7.localhost".toList = ds ++ ".localtest.me".toList ++ popt) ∧
      portSuffixOk popt = true ∧ ds ≠ [] ∧ ds.all isDigitChar = true) :=
  ⟨((C1_host_resolution.1 8000 (by norm_num) (by norm_num)).1).1,
    ((C1_host_resolution.1 9 (by norm_num) (by norm_num)).2 ['4', '4', '3']
      (by decide) (by decide)).2,
    C1_host_resolution.2.2.2.2.1 ['a', 'b', 'c'] (by decide) (by decide),
    C1_host_resolution.2.2.2.2.2 "7.localhost" 7 (by rfl)⟩

/-- C10: a digit run with leading zeros is accepted with the port read as
its decimal value — `08000.localhost` resolves to 8000 — provided that
value lies in `[1,65535]`; an all-zero digit run such as `0000.localhost`
still fails. -/
theorem C10_leading_zero_hosts :
    (∀ ds : List Char, ds ≠ [] → ds.all isDigitChar = true →
      1 ≤ digitsToNat ds → digitsToNat ds ≤ 65535 →
      parseHost (String.mk (ds ++ ".localhost".toList)) = .ok (digitsToNat ds)) ∧
    parseHost "08000.localhost" = .ok 8000 ∧
    isOkE (parseHost "0000.localhost") = false :=
  ⟨fun ds hne hall h1 h2 => parseHost_ok_gen ds ".localhost".toList hne hall rfl h1 h2,
    by rfl, by rfl⟩

/-- Witness for C10 at the concrete digit run `08000`. -/
theorem C10_leading_zero_hosts_witness :
    parseHost (String.mk (['0', '8', '0', '0', '0'] ++ ".localhost".toList)) = .ok 8000 :=
  C10_leading_zero_hosts.1 ['0', '8', '0', '0', '0'] (by decide) (by decide)
    (by decide) (by decide)

/-- C2: a port in any deny range is refused even when it also lies in the
allow range; when no deny range contains the port, admission holds exactly
when the port lies within the allow range's inclusive bounds; and no
admitted port ever lies outside the allow range. -/
theorem C2_port_admission :
    ∀ (c : Config) (p : Int), 1 ≤ p → p ≤ 65535 →
      ((∃ d ∈ c.DenyPorts, d.Contains p = true) → c.IsPortAllowed p = false) ∧
      ((∀ d ∈ c.DenyPorts, d.Contains p = false) →
        (c.IsPortAllowed p = true ↔ (c.AllowRange.start ≤ p ∧ p ≤ c.AllowRange.stop))) ∧
      (c.IsPortAllowed p = true → c.AllowRange.start ≤ p ∧ p ≤ c.AllowRange.stop) := by
  intro c p _ _
  refine ⟨?_, ?_, ?_⟩
  · rintro ⟨d, hd, hc⟩
    have hany : c.DenyPorts.any (fun pr => pr.Contains p) = true :=
      List.any_eq_true.mpr ⟨d, hd, hc⟩
    simp [Config.IsPortAllowed, hany]
  · intro hnone
    have hany : c.DenyPorts.any (fun pr => pr.Contains p) = false := by
      rw [List.any_eq_false]
      intro d hd
      simp [hnone d hd]
    rw [Config.IsPortAllowed, if_neg (by simp [hany])]
    simp [PortRange.Contains]
  · intro hok
    rw [Config.IsPortAllowed] at hok
    split at hok
    · exact absurd hok (by simp)
    · simpa [PortRange.Contains] using hok

lemma lowerStr_append (a b : List Char) :
    lowerStr (a ++ b) = lowerStr a ++ lowerStr b := by
  simp [lowerStr]

lemma startsList_self_app (n b : List Char) : startsList n (n ++ b) = true := by
  induction n with
  | nil => rfl
  | cons a as ih => simp [startsList, ih]

lemma containsSub_of_starts {n h : List Char} (hs : startsList n h = true) :
    containsSub n h = true := by
  cases h with
  | nil => simpa [containsSub] using hs
  | cons c t => simp [containsSub, hs]

lemma containsSub_app_left (a : List Char) {n h : List Char}
    (hc : containsSub n h = true) : containsSub n (a ++ h) = true := by
  induction a with
  | nil => simpa using hc
  | cons c t ih => simp [containsSub, ih]

lemma containsSub_at (a n b : List Char) : containsSub n (a ++ (n ++ b)) = true :=
  containsSub_app_left a (containsSub_of_starts (startsList_self_app n b))

lemma splitComma_ne_nil (s : List Char) : splitComma s ≠ [] := by
  cases s with
  | nil => simp [splitComma]
  | cons c t =>
    rw [splitComma]
    split
    · simp
    · cases h : splitComma t <;> simp

lemma splitComma_head_decomp :
    ∀ (s p : List Char) (ps : List (List Char)), splitComma s = p :: ps →
      ∃ b, s = p ++ b := by
  intro s
  induction s with
  | nil =>
    intro p ps h
    rw [splitComma] at h
    cases h
    exact ⟨[], rfl⟩
  | cons c t ih =>
    intro p ps h
    rw [splitComma] at h
    split at h
    · next hc =>
      cases h
      exact ⟨c :: t, by simp⟩
    · next hc =>
      cases hq : splitComma t with
      | nil => exact absurd hq (splitComma_ne_nil t)
      | cons q qs =>
        rw [hq] at h
        injection h with h1 h2
        subst h1
        obtain ⟨b, hb⟩ := ih q qs hq
        exact ⟨b, by simp [hb]⟩

lemma mem_splitComma_decomp :
    ∀ (s x : List Char), x ∈ splitComma s → ∃ a b, s = a ++ x ++ b := by
  intro s
  induction s with
  | nil =>
    intro x hx
    rw [splitComma] at hx
    simp only [List.mem_singleton] at hx
    exact ⟨[], [], by simp [hx]⟩
  | cons c t ih =>
    intro x hx
    rw [splitComma] at hx
    split at hx
    · next hc =>
      rcases List.mem_cons.mp hx with h | h
      · exact ⟨[], c :: t, by simp [h]⟩
      · obtain ⟨a, b, hab⟩ := ih x h
        exact ⟨c :: a, b, by simp [hab]⟩
    · next hc =>
      cases hq : splitComma t with
      | nil => exact absurd hq (splitComma_ne_nil t)
      | cons q qs =>
        rw [hq] at hx
        rcases List.mem_cons.mp hx with h | h
        · obtain ⟨b, hb⟩ := splitComma_head_decomp t q qs hq
          exact ⟨[], b, by simp [h, hb]⟩
        · obtain ⟨a, b, hab⟩ := ih x (by rw [hq]; exact List.mem_cons_of_mem q h)
          exact ⟨c :: a, b, by simp [hab]⟩

lemma trimOWS_decomp (t : List Char) : ∃ a b, t = a ++ trimOWS t ++ b := by
  refine ⟨t.takeWhile isOWS, ((t.dropWhile isOWS).reverse.takeWhile isOWS).reverse, ?_⟩
  rw [trimOWS]
  conv_lhs => rw [← List.takeWhile_append_dropWhile isOWS t]
  rw [List.append_assoc]
  congr 1
  conv_lhs =>
    rw [← List.reverse_reverse (t.dropWhile isOWS),
      ← List.takeWhile_append_dropWhile isOWS (t.dropWhile isOWS).reverse,
      List.reverse_append]

/-- C3 (amended): the dispatcher classifies a request as a stream upgrade
iff the lowercased `Connection` header contains `"upgrade"` as a substring
and the `Upgrade` header case-insensitively equals `"websocket"`.  Token
membership of `"upgrade"` in the comma-separated `Connection` list is
sufficient (so every spec-described upgrade request is classified as one),
but not necessary: the code tests a substring, not the token list. -/
theorem C3_websocket_classification :
    ∀ connection upgradeHeader : String,
      (connectionHasUpgradeToken connection = true →
        lowerStr upgradeHeader.toList = "websocket".toList →
        isWebSocketRequest connection upgradeHeader = true) ∧
      (isWebSocketRequest connection upgradeHeader = true →
        containsSub "upgrade".toList (lowerStr connection.toList) = true ∧
        lowerStr upgradeHeader.toList = "websocket".toList) := by
  intro connection upgradeHeader
  constructor
  · intro htok hupg
    rw [connectionHasUpgradeToken, List.any_eq_true] at htok
    obtain ⟨t, ht, heq⟩ := htok
    have heq' : lowerStr (trimOWS t) = "upgrade".toList := by
      exact eq_of_beq heq
    obtain ⟨a, b, hab⟩ := mem_splitComma_decomp connection.toList t ht
    obtain ⟨a', b', hab'⟩ := trimOWS_decomp t
    rw [isWebSocketRequest]
    have hconn : connection.toList = (a ++ a') ++ trimOWS t ++ (b' ++ b) := by
      rw [hab]
      conv_lhs => rw [hab']
      simp [List.append_assoc]
    have hcontains : containsSub "upgrade".toList (lowerStr connection.toList) = true := by
      rw [hconn, lowerStr_append, lowerStr_append, heq', List.append_assoc]
      exact containsSub_at _ _ _
    rw [hcontains, hupg]
    simp
  · intro hws
    rw [isWebSocketRequest, Bool.and_eq_true] at hws
    exact ⟨hws.1, eq_of_beq hws.2⟩

/-- Witness for C3's amended theorem at a concrete upgrade request
(`Connection: keep-alive, Upgrade`, `Upgrade: WebSocket`). -/
theorem C3_websocket_classification_witness :
    isWebSocketRequest "keep-alive, Upgrade" "WebSocket" = true :=
  (C3_websocket_classification "keep-alive, Upgrade" "WebSocket").1
    (by rfl) (by rfl)

/-- C3 counterexample: `Connection: xupgradez` contains `"upgrade"` only
as a substring of a longer token — its token list does not contain the
token `"upgrade"` — yet with `Upgrade: websocket` the code classifies the
request as a stream upgrade, where the claim says it must be ordinary
HTTP. -/
theorem C3_websocket_classification_counterexample :
    isWebSocketRequest "xupgradez" "websocket" = true ∧
    connectionHasUpgradeToken "xupgradez" = false :=
  ⟨by rfl, by rfl⟩

/-- Witness for C2 on the default policy: port 22 lies in a deny range and
is refused; port 8000 lies in no deny range and admission agrees with the
allow bounds. -/
theorem C2_port_admission_witness :
    defaultConfig.IsPortAllowed 22 = false ∧
    (defaultConfig.IsPortAllowed 8000 = true ↔
      (defaultConfig.AllowRange.start ≤ (8000 : Int) ∧
        (8000 : Int) ≤ defaultConfig.AllowRange.stop)) :=
  ⟨(C2_port_admission defaultConfig 22 (by norm_num) (by norm_num)).1
      ⟨⟨22, 22⟩, by decide, by decide⟩,
    (C2_port_admission defaultConfig 8000 (by norm_num) (by norm_num)).2.1
      (by decide)⟩

lemma headerGet_set_same (hs : List (String × String)) (k v : String) :
    headerGet (setHeader hs k v) k = v := by
  simp [headerGet, setHeader, List.find?_cons_of_pos]

lemma find?_eraseKey (hs : List (String × String)) (k k' : String)
    (h : (k' == k) = false) :
    (eraseKey hs k').find? (fun e => e.1 == k) = hs.find? (fun e => e.1 == k) := by
  induction hs with
  | nil => rfl
  | cons e t ih =>
    rw [eraseKey, List.filter_cons]
    by_cases hek : (e.1 == k') = true
    · have he1 : e.1 = k' := eq_of_beq hek
      have hek2 : (e.1 == k) = false := by
        rw [he1]
        exact h
      simp only [hek, Bool.not_true, Bool.false_eq_true, if_false]
      rw [List.find?_cons_of_neg _ (by simp [hek2]), ← eraseKey]
      exact ih
    · have hek' : (e.1 == k') = false := by
        cases hh : (e.1 == k')
        · rfl
        · exact absurd hh hek
      simp only [hek', Bool.not_false, if_true]
      by_cases hk : (e.1 == k) = true
      · rw [List.find?_cons_of_pos _ (by simpa using hk),
          List.find?_cons_of_pos _ (by simpa using hk)]
      · rw [List.find?_cons_of_neg _ (by simpa using hk),
          List.find?_cons_of_neg _ (by simpa using hk), ← eraseKey]
        exact ih

lemma headerGet_set_other (hs : List (String × String)) (k' v k : String)
    (h : (k' == k) = false) :
    headerGet (setHeader hs k' v) k = headerGet hs k := by
  rw [headerGet, setHeader, List.find?_cons_of_neg _ (by simp [h]), find?_eraseKey hs k k' h,
    headerGet]

lemma serveHTTP_cases (cfg : Config) (env : Env) (requestID : String) (r : Request) :
    (∃ code msg hint ex, serveHTTP cfg env requestID r =
      writeJSONError (setHeader [] "X-Request-ID" requestID) code msg hint ex) ∨
    (∃ resp, env.backendHTTP = .ok resp ∧ serveHTTP cfg env requestID r =
      .http resp.status (setHeader [] "X-Request-ID" requestID ++ resp.headers)
        (.raw resp.body)) ∨
    serveHTTP cfg env requestID r = .tunnel env.tunnelBytes := by
  cases hph : parseHost r.host with
  | error e =>
    exact Or.inl ⟨400, e, _, _, by rw [serveHTTP, hph]⟩
  | ok port =>
    by_cases hal : cfg.IsPortAllowed port = true
    · by_cases hws : isWebSocketRequest (headerGet r.headers "Connection")
        (headerGet r.headers "Upgrade") = true
      · by_cases hdial : env.dialOk = true
        · by_cases hhs : env.hijackSupported = true
          · by_cases hho : env.hijackOk = true
            · refine Or.inr (Or.inr ?_)
              rw [serveHTTP, hph]
              simp [hal, hws, hdial, hhs, hho]
            · rw [Bool.not_eq_true] at hho
              refine Or.inl ⟨500, "Failed to hijack connection", "", "", ?_⟩
              rw [serveHTTP, hph]
              simp [hal, hws, hdial, hhs, hho]
          · rw [Bool.not_eq_true] at hhs
            refine Or.inl ⟨500, "WebSocket hijacking not supported", "", "", ?_⟩
            rw [serveHTTP, hph]
            simp [hal, hws, hdial, hhs]
        · rw [Bool.not_eq_true] at hdial
          refine Or.inl ⟨502, "Failed to connect to backend",
            "Make sure a service is running on port " ++ toString port, "", ?_⟩
          rw [serveHTTP, hph]
          simp [hal, hws, hdial]
      · rw [Bool.not_eq_true] at hws
        cases hb : env.backendHTTP with
        | error e =>
          refine Or.inl ⟨502, (proxyErrMsg e port).1, (proxyErrMsg e port).2, "", ?_⟩
          rw [serveHTTP, hph]
          simp [hal, hws, hb]
        | ok resp =>
          refine Or.inr (Or.inl ⟨resp, rfl, ?_⟩)
          rw [serveHTTP, hph]
          simp [hal, hws, hb]
    · rw [Bool.not_eq_true] at hal
      refine Or.inl ⟨403, "Port " ++ toString port ++ " is not allowed",
        "This port is either denied or outside the allowed range",
        "https://8000.localhost", ?_⟩
      rw [serveHTTP, hph]
      simp [hal]

lemma headerGet_jsonError_requestID (requestID v : String) :
    headerGet (setHeader (setHeader [] "X-Request-ID" requestID) "Content-Type" v)
      "X-Request-ID" = requestID := by
  rw [headerGet_set_other _ _ _ _ (by decide), headerGet_set_same]

/-- C4 (amended): every response written through the HTTP response writer —
successful proxying and all error responses — carries `X-Request-ID` set to
the request id; but a successful stream-upgrade hijack relays exactly the
backend's bytes to the client, injecting no header. -/
theorem C4_request_id :
    ∀ (cfg : Config) (env : Env) (requestID : String) (r : Request),
      (∀ status hs body, serveHTTP cfg env requestID r = .http status hs body →
        headerGet hs "X-Request-ID" = requestID) ∧
      (∀ bs, serveHTTP cfg env requestID r = .tunnel bs → bs = env.tunnelBytes) := by
  intro cfg env requestID r
  constructor
  · intro status hs body h
    rcases serveHTTP_cases cfg env requestID r with
      ⟨code, msg, hint, ex, he⟩ | ⟨resp, hb, he⟩ | he
    · rw [he, writeJSONError] at h
      cases h
      exact headerGet_jsonError_requestID requestID "application/json"
    · rw [he] at h
      cases h
      have hcons : setHeader [] "X-Request-ID" requestID ++ resp.headers
          = ("X-Request-ID", requestID) :: resp.headers := rfl
      rw [hcons, headerGet, List.find?_cons_of_pos _ (by simp)]
    · rw [he] at h
      exact Outcome.noConfusion h
  · intro bs h
    rcases serveHTTP_cases cfg env requestID r with
      ⟨code, msg, hint, ex, he⟩ | ⟨resp, hb, he⟩ | he
    · rw [he, writeJSONError] at h
      exact Outcome.noConfusion h
    · rw [he] at h
      exact Outcome.noConfusion h
    · rw [he] at h
      cases h
      rfl

/-- Witness for C4 at a concrete inadmissible-host request (the 400
response carries the id) and, for the tunnel part, see the
counterexample's concrete upgrade request. -/
theorem C4_request_id_witness :
    headerGet (setHeader (setHeader [] "X-Request-ID" "id-9") "Content-Type"
      "application/json") "X-Request-ID" = "id-9" :=
  (C4_request_id defaultConfig ⟨.error .generic, true, true, true, []⟩ "id-9"
      { host := "example.com", method := "GET", path := "/", query := "", body := [],
        remoteAddr := "1.2.3.4:5", headers := [] }).1 400 _ _ (by rfl)

/-- C4 counterexample: on a successful WebSocket upgrade the hijacked
connection relays the backend's bytes verbatim; with a backend that sends
`[1, 2, 3]` — which does not contain the ASCII bytes of `X-Request-ID` —
the client's response carries no `X-Request-ID` header, contradicting the
claim that every response does. -/
theorem C4_request_id_counterexample :
    serveHTTP defaultConfig
      { backendHTTP := .error .generic, dialOk := true, hijackSupported := true,
        hijackOk := true, tunnelBytes := [1, 2, 3] }
      "id-1"
      { host := "8080.localhost", method := "GET", path := "/", query := "", body := [],
        remoteAddr := "127.0.0.1:50000",
        headers := [("Connection", "Upgrade"), ("Upgrade", "websocket")] }
      = .tunnel [1, 2, 3] ∧
    containsSub (asciiBytes "X-Request-ID") [1, 2, 3] = false :=
  ⟨by rfl, by rfl⟩

/-- C5 (amended): per-request failures map to exact statuses and a JSON
`ErrorResponse` body.  A host that `parseHost` rejects yields 400 with the
resolver's message — `invalid host format: <host>` exactly when the host
fails the anchored pattern, an out-of-range message when the digit run
parses outside `[1,65535]`; a parsed but denied or out-of-allow-range port
yields 403 with `Port <p> is not allowed`; a backend dial or forwarding
failure yields 502; unsupported or failed connection takeover yields
500. -/
theorem C5_error_responses :
    ∀ (cfg : Config) (env : Env) (requestID : String) (r : Request),
      (∀ e, parseHost r.host = .error e →
        serveHTTP cfg env requestID r =
          writeJSONError (setHeader [] "X-Request-ID" requestID) 400 e
            "Use format: https://<port>.localhost" "https://8000.localhost") ∧
      ((r.host.toList.takeWhile isDigitChar).isEmpty = true ∨
        suffixOk (r.host.toList.dropWhile isDigitChar) = false →
        parseHost r.host = .error ("invalid host format: " ++ r.host)) ∧
      (∀ port, parseHost r.host = .ok port → cfg.IsPortAllowed port = false →
        serveHTTP cfg env requestID r =
          writeJSONError (setHeader [] "X-Request-ID" requestID) 403
            ("Port " ++ toString port ++ " is not allowed")
            "This port is either denied or outside the allowed range"
            "https://8000.localhost") ∧
      (∀ port, parseHost r.host = .ok port → cfg.IsPortAllowed port = true →
        isWebSocketRequest (headerGet r.headers "Connection")
          (headerGet r.headers "Upgrade") = true →
        env.dialOk = false →
        serveHTTP cfg env requestID r =
          writeJSONError (setHeader [] "X-Request-ID" requestID) 502
            "Failed to connect to backend"
            ("Make sure a service is running on port " ++ toString port) "") ∧
      (∀ port, parseHost r.host = .ok port → cfg.IsPortAllowed port = true →
        isWebSocketRequest (headerGet r.headers "Connection")
          (headerGet r.headers "Upgrade") = true →
        env.dialOk = true → env.hijackSupported = false →
        serveHTTP cfg env requestID r =
          writeJSONError (setHeader [] "X-Request-ID" requestID) 500
            "WebSocket hijacking not supported" "" "") ∧
      (∀ port, parseHost r.host = .ok port → cfg.IsPortAllowed port = true →
        isWebSocketRequest (headerGet r.headers "Connection")
          (headerGet r.headers "Upgrade") = true →
        env.dialOk = true → env.hijackSupported = true → env.hijackOk = false →
        serveHTTP cfg env requestID r =
          writeJSONError (setHeader [] "X-Request-ID" requestID) 500
            "Failed to hijack connection" "" "") ∧
      (∀ port e, parseHost r.host = .ok port → cfg.IsPortAllowed port = true →
        isWebSocketRequest (headerGet r.headers "Connection")
          (headerGet r.headers "Upgrade") = false →
        env.backendHTTP = .error e →
        serveHTTP cfg env requestID r =
          writeJSONError (setHeader [] "X-Request-ID" requestID) 502
            (proxyErrMsg e port).1 (proxyErrMsg e port).2 "") := by
  intro cfg env requestID r
  refine ⟨?_, ?_, ?_, ?_, ?_, ?_, ?_⟩
  · intro e hph
    rw [serveHTTP, hph]
  · intro hfail
    have hcond : ((r.host.toList.takeWhile isDigitChar).isEmpty
        || !(suffixOk (r.host.toList.dropWhile isDigitChar))) = true := by
      rcases hfail with h1 | h2
      · rw [h1, Bool.true_or]
      · rw [h2]
        simp
    rw [parseHost, if_pos hcond]
  · intro port hph hal
    rw [serveHTTP, hph]
    simp [hal]
  · intro port hph hal hws hdial
    rw [serveHTTP, hph]
    simp [hal, hws, hdial]
  · intro port hph hal hws hdial hhs
    rw [serveHTTP, hph]
    simp [hal, hws, hdial, hhs]
  · intro port hph hal hws hdial hhs hho
    rw [serveHTTP, hph]
    simp [hal, hws, hdial, hhs, hho]
  · intro port e hph hal hws hb
    rw [serveHTTP, hph]
    simp [hal, hws, hb]

/-- Witness for C5: the spec's own scenarios — `example.com` yields 400
with `invalid host format: example.com`, and `22.localhost` yields 403
with `Port 22 is not allowed`. -/
theorem C5_error_responses_witness :
    serveHTTP defaultConfig ⟨.error .generic, true, true, true, []⟩ "id-2"
      { host := "example.com", method := "GET", path := "/", query := "", body := [],
        remoteAddr := "1.2.3.4:5", headers := [] } =
      writeJSONError (setHeader [] "X-Request-ID" "id-2") 400
        "invalid host format: example.com" "Use format: https://<port>.localhost"
        "https://8000.localhost" ∧
    serveHTTP defaultConfig ⟨.error .generic, true, true, true, []⟩ "id-3"
      { host := "22.localhost", method := "GET", path := "/", query := "", body := [],
        remoteAddr := "1.2.3.4:5", headers := [] } =
      writeJSONError (setHeader [] "X-Request-ID" "id-3") 403 "Port 22 is not allowed"
        "This port is either denied or outside the allowed range"
        "https://8000.localhost" :=
  ⟨(C5_error_responses defaultConfig ⟨.error .generic, true, true, true, []⟩ "id-2"
      { host := "example.com", method := "GET", path := "/", query := "", body := [],
        remoteAddr := "1.2.3.4:5", headers := [] }).1
      "invalid host format: example.com" (by rfl),
    (C5_error_responses defaultConfig ⟨.error .generic, true, true, true, []⟩ "id-3"
      { host := "22.localhost", method := "GET", path := "/", query := "", body := [],
        remoteAddr := "1.2.3.4:5", headers := [] }).2.2.1 22 (by rfl) (by rfl)⟩

/-- C5 counterexample: `0.localhost` is an invalid host (resolution
fails), and the response is indeed a 400 JSON error, but its `error`
field is the resolver's out-of-range message, not
`invalid host format: 0.localhost` as the claim requires. -/
theorem C5_error_responses_counterexample :
    serveHTTP defaultConfig ⟨.error .generic, true, true, true, []⟩ "id-1"
      { host := "0.localhost", method := "GET", path := "/", query := "", body := [],
        remoteAddr := "1.2.3.4:5", headers := [] }
      = .http 400
          (setHeader (setHeader [] "X-Request-ID" "id-1") "Content-Type"
            "application/json")
          (.jsonError { error := "port 0 out of valid range (1-65535)",
                        hint := some "Use format: https://<port>.localhost",
                        exampleURL := some "https://8000.localhost" }) ∧
    "port 0 out of valid range (1-65535)" ≠ "invalid host format: 0.localhost" :=
  ⟨by rfl, by decide⟩

lemma rwWriteHeader_wroteHeader (st : RWState) (c : Nat) :
    (rwWriteHeader st c).wroteHeader = true := by
  rw [rwWriteHeader]
  split
  · next h => exact h
  · rfl

lemma rwWriteHeader_bytesWritten (st : RWState) (c : Nat) :
    (rwWriteHeader st c).bytesWritten = st.bytesWritten := by
  rw [rwWriteHeader]
  split <;> rfl

lemma rwWriteHeader_underlyingWrites (st : RWState) (c : Nat) :
    (rwWriteHeader st c).underlyingWrites = st.underlyingWrites := by
  rw [rwWriteHeader]
  split <;> rfl

lemma rwRun_statusCode_stable (ops : List WOp) : ∀ st : RWState,
    st.wroteHeader = true → (rwRun st ops).statusCode = st.statusCode := by
  induction ops with
  | nil => intro st _; rfl
  | cons op rest ih =>
    intro st h
    cases op with
    | writeHeader c =>
      rw [rwRun, rwWriteHeader, if_pos h]
      exact ih st h
    | write b n =>
      rw [rwRun, rwWrite]
      simp only [h, if_true]
      exact ih _ rfl

lemma rwRun_bytes (ops : List WOp) : ∀ st : RWState,
    (rwRun st ops).bytesWritten = st.bytesWritten + sumAccepted ops := by
  induction ops with
  | nil => intro st; simp [rwRun, sumAccepted]
  | cons op rest ih =>
    intro st
    cases op with
    | writeHeader c =>
      rw [rwRun, ih, rwWriteHeader_bytesWritten, sumAccepted]
    | write b n =>
      rw [rwRun, ih, sumAccepted, rwWrite]
      have hb : (if st.wroteHeader = true then st else rwWriteHeader st 200).bytesWritten
          = st.bytesWritten := by
        split
        · rfl
        · exact rwWriteHeader_bytesWritten st 200
      simp only [hb]
      omega

lemma rwRun_payloads (ops : List WOp) : ∀ st : RWState,
    (rwRun st ops).underlyingWrites = st.underlyingWrites ++ writePayloads ops := by
  induction ops with
  | nil => intro st; simp [rwRun, writePayloads]
  | cons op rest ih =>
    intro st
    cases op with
    | writeHeader c =>
      rw [rwRun, ih, rwWriteHeader_underlyingWrites, writePayloads]
    | write b n =>
      rw [rwRun, ih, writePayloads, rwWrite]
      have hw : (if st.wroteHeader = true then st else rwWriteHeader st 200).underlyingWrites
          = st.underlyingWrites := by
        split
        · rfl
        · exact rwWriteHeader_underlyingWrites st 200
      simp only [hw, List.append_assoc, List.singleton_append]

/-- C9: the response wrapper observes without altering.  For every call
sequence: the recorded status is 200 when body bytes precede any explicit
`WriteHeader` (or no call occurs), else the code of the first
`WriteHeader`, later calls never changing it; the recorded byte count is
the cumulative sum of the counts the underlying writer reported; and
every `Write` payload reaches the underlying writer unmodified and in
order. -/
theorem C9_response_wrapper :
    ∀ ops : List WOp,
      (rwRun rwInit ops).statusCode = expectedStatus ops ∧
      (rwRun rwInit ops).bytesWritten = sumAccepted ops ∧
      (rwRun rwInit ops).underlyingWrites = writePayloads ops := by
  intro ops
  refine ⟨?_, by simpa [rwInit] using rwRun_bytes ops rwInit,
    by simpa [rwInit] using rwRun_payloads ops rwInit⟩
  cases ops with
  | nil => rfl
  | cons op rest =>
    cases op with
    | writeHeader c =>
      have : rwRun rwInit (WOp.writeHeader c :: rest) = rwRun (rwWriteHeader rwInit c) rest := rfl
      rw [this, rwRun_statusCode_stable rest _ (by rfl)]
      rfl
    | write b n =>
      have : rwRun rwInit (WOp.write b n :: rest) = rwRun (rwWrite rwInit b n) rest := rfl
      rw [this, rwRun_statusCode_stable rest _ (by rfl)]
      rfl

lemma loadCertificates_ok_inv {oracle : CryptoOracle} {fs : FS} {p q : String}
    {t : TLSConfig} (h : loadCertificates oracle fs p q = .ok t) :
    fs.read p = some t.certPem ∧ fs.read q = some t.keyPem ∧
      oracle.loadOk t.certPem t.keyPem = true := by
  rw [loadCertificates] at h
  split at h
  · exact Except.noConfusion h
  · next c hc =>
    split at h
    · exact Except.noConfusion h
    · next k hk =>
      split at h
      · next ho =>
        injection h with h1
        subst h1
        exact ⟨hc, hk, ho⟩
      · exact Except.noConfusion h

lemma loadCertificates_of_reads {oracle : CryptoOracle} {fs : FS} {p q : String}
    {c k : Bytes} (hc : fs.read p = some c) (hk : fs.read q = some k)
    (ho : oracle.loadOk c k = true) :
    loadCertificates oracle fs p q = .ok ⟨c, k⟩ := by
  rw [loadCertificates, hc, hk]
  simp [ho]

lemma loadOrGenerate_of_load {oracle : CryptoOracle} {gen : GenMaterial}
    {cfg : TLSUtilConfig} {fs : FS} {t : TLSConfig}
    (hself : cfg.SelfSigned = true)
    (hload : loadCertificates oracle fs cfg.CertPath cfg.KeyPath = .ok t) :
    LoadOrGenerateCert oracle gen cfg fs = (.ok t, fs) := by
  obtain ⟨hc, hk, _⟩ := loadCertificates_ok_inv hload
  have hfe : (fileExists fs cfg.CertPath && fileExists fs cfg.KeyPath) = true := by
    rw [fileExists, fileExists, hc, hk]
    rfl
  rw [LoadOrGenerateCert]
  simp only [hself, Bool.not_true, Bool.false_eq_true, if_false]
  rw [if_pos hfe, hload]

lemma generateSelfSignedCert_ok {oracle : CryptoOracle} {gen : GenMaterial}
    {certPath keyPath : String} {fs fs1 : FS} {t : TLSConfig}
    (h : generateSelfSignedCert oracle gen certPath keyPath fs = (.ok t, fs1)) :
    loadCertificates oracle fs1 certPath keyPath = .ok t := by
  rw [generateSelfSignedCert] at h
  split at h
  · next t' heq =>
    injection h with h1 h2
    injection h1 with h1
    subst h1
    subst h2
    exact heq
  · next heq =>
    injection h with h1 h2
    exact Except.noConfusion h1

/-- C6: self-signed provisioning is idempotent.  If a loadable pair exists
at the configured paths, `LoadOrGenerateCert` in self-signed mode returns
the TLS configuration built from that pair and leaves the whole filesystem
— certificate, key and CA files included — byte-for-byte unchanged; and
whenever a self-signed call succeeds, a second call with the same paths
returns the same configuration and leaves the first call's artifacts
identical. -/
theorem C6_provisioning_idempotent :
    (∀ (oracle : CryptoOracle) (gen : GenMaterial) (cfg : TLSUtilConfig)
        (fs : FS) (c k : Bytes),
      cfg.SelfSigned = true →
      fs.read cfg.CertPath = some c → fs.read cfg.KeyPath = some k →
      oracle.loadOk c k = true →
      LoadOrGenerateCert oracle gen cfg fs = (.ok ⟨c, k⟩, fs)) ∧
    (∀ (oracle : CryptoOracle) (gen gen' : GenMaterial) (cfg : TLSUtilConfig)
        (fs : FS) (t : TLSConfig) (fs1 : FS),
      cfg.SelfSigned = true →
      LoadOrGenerateCert oracle gen cfg fs = (.ok t, fs1) →
      LoadOrGenerateCert oracle gen' cfg fs1 = (.ok t, fs1)) := by
  constructor
  · intro oracle gen cfg fs c k hself hc hk ho
    exact loadOrGenerate_of_load hself (loadCertificates_of_reads hc hk ho)
  · intro oracle gen gen' cfg fs t fs1 hself h
    rw [LoadOrGenerateCert] at h
    simp only [hself, Bool.not_true, Bool.false_eq_true, if_false] at h
    split at h
    · split at h
      · next t' hload =>
        injection h with h1 h2
        injection h1 with h1
        subst h1
        subst h2
        exact loadOrGenerate_of_load hself hload
      · exact loadOrGenerate_of_load hself (generateSelfSignedCert_ok h)
    · exact loadOrGenerate_of_load hself (generateSelfSignedCert_ok h)

/-- Witness for C6: a filesystem already holding a loadable pair is
returned untouched, and after a generating first call from an empty
filesystem, the second call returns the same configuration and the same
filesystem. -/
theorem C6_provisioning_idempotent_witness :
    LoadOrGenerateCert ⟨fun _ _ => true⟩ ⟨[5], [6], [7]⟩
      ⟨"cert.pem", "key.pem", true⟩ [("cert.pem", [1]), ("key.pem", [2])]
      = (.ok ⟨[1], [2]⟩, [("cert.pem", [1]), ("key.pem", [2])]) ∧
    LoadOrGenerateCert ⟨fun _ _ => true⟩ ⟨[8], [9], [10]⟩
      ⟨"cert.pem", "key.pem", true⟩
      [("ca.pem", [1, 6]), ("key.pem", [1, 7]), ("cert.pem", [1, 5, 1, 6])]
      = (.ok ⟨[1, 5, 1, 6], [1, 7]⟩,
          [("ca.pem", [1, 6]), ("key.pem", [1, 7]), ("cert.pem", [1, 5, 1, 6])]) :=
  ⟨C6_provisioning_idempotent.1 ⟨fun _ _ => true⟩ ⟨[5], [6], [7]⟩
      ⟨"cert.pem", "key.pem", true⟩ [("cert.pem", [1]), ("key.pem", [2])] [1] [2]
      rfl (by rfl) (by rfl) rfl,
    C6_provisioning_idempotent.2 ⟨fun _ _ => true⟩ ⟨[5], [6], [7]⟩ ⟨[8], [9], [10]⟩
      ⟨"cert.pem", "key.pem", true⟩ [] ⟨[1, 5, 1, 6], [1, 7]⟩
      [("ca.pem", [1, 6]), ("key.pem", [1, 7]), ("cert.pem", [1, 5, 1, 6])]
      rfl (by rfl)⟩

/-- C7 (amended): the synthesized root CA template has key usage exactly
certificate-signing plus CRL-signing, a 10-year validity horizon
(`NotAfter = now.AddDate(10, 0, 0)`, `NotBefore = now - 1h`), and a
basic-constraints path length of 1 — which permits up to one intermediate
CA below the root, not only direct leaf signing. -/
theorem C7_ca_template :
    caTemplate.keyUsage = Nat.lor KeyUsageCertSign KeyUsageCRLSign ∧
    caTemplate.keyUsage = 96 ∧
    caTemplate.notBeforeHoursOffset = -1 ∧
    caTemplate.notAfterYearsOffset = 10 ∧
    caTemplate.isCA = true ∧
    caTemplate.basicConstraintsValid = true ∧
    encodedPathLen caTemplate = some 1 ∧
    (∀ m : Nat, pathLenAdmitsIntermediates caTemplate m = decide (m ≤ 1)) := by
  refine ⟨rfl, by decide, rfl, rfl, rfl, rfl, by rfl, ?_⟩
  intro m
  rfl

/-- C7 counterexample: the claim says the path-length constraint limits
the CA to signing one tier of leaves, i.e. that no intermediate CA may be
chained below it — but the encoded constraint is 1, not 0, and a chain
with one intermediate CA below the root satisfies it. -/
theorem C7_ca_template_counterexample :
    caTemplate.maxPathLen = 1 ∧ caTemplate.maxPathLenZero = false ∧
    encodedPathLen caTemplate ≠ some 0 ∧
    pathLenAdmitsIntermediates caTemplate 1 = true :=
  ⟨rfl, rfl, by decide, rfl⟩

end Httpsify
